import Mathlib

/-!
Shallow embedding of the File-Management-Agent repository
(`main.py`, `config.py`, `src/utils.py`, `src/tools.py`) and proofs about it.

Conventions of the embedding:
* Python strings are modelled as `String` for path names and as `List Char`
  for extracted file text (Python `len`/slicing on `str` is character based,
  which matches `List.length`/`take`/`drop`).
* The filesystem and the external parsing libraries (pandas, pypdf, docx,
  `json`, `glob`, `os.walk`, `os.stat`) are opaque text extractors per the
  specification; they are modelled as fields of an abstract `FS` record.
  A Python exception raised by them is an `Except.error` carrying `str(e)`.
* The OpenAI client is an oracle function; summarization is an abstract
  `SummEnv`.  `re` is an abstract `RegexEnv`.
-/

namespace FMAgent

/-! ## Path model (`os.path` on POSIX)

`os.path.abspath(p)` is `normpath(join(getcwd(), p))`.  The working directory
`cwd` is threaded explicitly and is assumed to be a normalized absolute path
without a trailing slash (what `os.getcwd()` returns).  The POSIX corner case
of exactly two leading slashes in `normpath` is not modelled; no path in the
development starts with `//`. -/

/-- Python `s.split(sep)` for a one-character separator, on character lists. -/
def splitChar (sep : Char) : List Char → List (List Char)
  | [] => [[]]
  | c :: rest =>
    let r := splitChar sep rest
    if c = sep then [] :: r
    else
      match r with
      | h :: t => (c :: h) :: t
      | [] => [[c]]

/-- One step of `posixpath.normpath`'s component scan: skip empty and `.`
components, append a normal component, and let `..` pop the previous
component unless there is nothing to pop (or the path is relative and the
stack is empty or already ends in `..`). -/
def normStep (initialSlash : Bool) (acc : List (List Char)) (comp : List Char) :
    List (List Char) :=
  if comp = [] ∨ comp = ['.'] then acc
  else if comp ≠ ['.', '.'] ∨ (¬ initialSlash ∧ acc = []) ∨ acc.getLast? = some ['.', '.'] then
    acc ++ [comp]
  else if acc ≠ [] then acc.dropLast
  else acc

/-- Model of `posixpath.normpath`. -/
def normpath (p : String) : String :=
  if p = "" then "."
  else
    let cs := p.toList
    let initialSlash := cs.head? = some '/'
    let comps := (splitChar '/' cs).foldl (normStep initialSlash) []
    let joined := List.intercalate ['/'] comps
    let res := if initialSlash then '/' :: joined else joined
    if res = [] then "." else String.mk res

/-- Model of `os.path.isabs` on POSIX. -/
def isabs (p : String) : Bool := p.toList.head? = some '/'

/-- Model of `os.path.join` for two arguments on POSIX. -/
def pathJoin (a b : String) : String :=
  if isabs b then b
  else if a = "" then b
  else if a.toList.getLast? = some '/' then a ++ b
  else a ++ "/" ++ b

/-- Python `s.startswith(pre)`. -/
def strStartsWith (s pre : String) : Bool := pre.toList.isPrefixOf s.toList

/-- Model of `os.path.abspath`: join the working directory and normalize. -/
def abspath (cwd p : String) : String := normpath (pathJoin cwd p)

/-- Model of `config.SAFE_BASE_DIR = os.path.abspath("./sample_dir")`, evaluated with
the process working directory. -/
def SAFE_BASE_DIR (cwd : String) : String := abspath cwd "./sample_dir"

/-- The message of the `PermissionError` raised by `utils.safe_path`. -/
def permError (path base : String) : String :=
  "Access to path not allowed: " ++ path ++ ". Must be under " ++ base

/-- Model of `utils.safe_path`: canonicalize and require the canonical sandbox root as
a string prefix of the canonical path; `Except.error` is the raised
`PermissionError`. -/
def safe_path (cwd path : String) : Except String String :=
  let abs_path := abspath cwd path
  let base := abspath cwd (SAFE_BASE_DIR cwd)
  if strStartsWith abs_path base then Except.ok abs_path
  else Except.error (permError path base)

/-- Length of the longest common prefix of two component lists
(`posixpath.commonprefix` on already-split lists). -/
def commonPrefixLen : List (List Char) → List (List Char) → Nat
  | a :: as, b :: bs => if a = b then commonPrefixLen as bs + 1 else 0
  | _, _ => 0

/-- Model of `os.path.relpath(p, start)` on POSIX. -/
def relpath (cwd p start : String) : String :=
  let pl := (splitChar '/' (abspath cwd p).toList).filter (· ≠ [])
  let sl := (splitChar '/' (abspath cwd start).toList).filter (· ≠ [])
  let i := commonPrefixLen sl pl
  let rel := List.replicate (sl.length - i) ['.', '.'] ++ pl.drop i
  if rel = [] then "." else String.mk (List.intercalate ['/'] rel)

/-- Basename: the part of the path after the last slash. -/
def lastComponent (p : String) : List Char :=
  ((splitChar '/' p.toList).getLast?).getD []

/-- The suffix of `cs` starting at its last dot (dot included), if any. -/
def afterLastDot : List Char → Option (List Char)
  | [] => none
  | c :: rest =>
    match afterLastDot rest with
    | some s => some s
    | none => if c = '.' then some (c :: rest) else none

/-- Model of `utils.get_extension`: `os.path.splitext(path)[1].lower()`.  Leading dots
of the basename never start an extension. -/
def get_extension (p : String) : String :=
  let base := lastComponent p
  let rest := base.dropWhile (· = '.')
  String.mk (((afterLastDot rest).getD []).map Char.toLower)

/-- Following the spec's words, not the code: the canonical form of `p` lies
inside the sandbox root when it is the root itself or a path below it
(root followed by a slash).  Used to compare the spec's notion of "inside"
with the code's string-prefix check. -/
def specInsideRoot (cwd p : String) : Bool :=
  let a := abspath cwd p
  let base := SAFE_BASE_DIR cwd
  a = base ∨ strStartsWith a (base ++ "/")

/-! ## Chunker (`utils.chunk_text`)

`chunk_text` is a generator; its loop is
`start = end - overlap if end - overlap > start else end`.
The recursion is modelled with explicit fuel: one unit per yielded chunk.
`text.length` units of fuel are sufficient whenever `chunk_size ≥ 1`
(proved below); for `chunk_size = 0` and nonempty text the Python generator
never terminates, a configuration outside every claim's domain. -/

/-- The update of `start` in `utils.chunk_text`:
`end - overlap` when that moves forward, else `end`. -/
def next_start (chunk_size overlap start : Nat) : Nat :=
  let e := start + chunk_size
  if start < e - overlap then e - overlap else e

/-- The chunk loop with explicit fuel, yielding `text[start:start+chunk_size]`
and continuing from `next_start`. -/
def chunkFromFuel (text : List Char) (chunk_size overlap : Nat) :
    Nat → Nat → List (List Char)
  | 0, _ => []
  | fuel + 1, start =>
    if start < text.length then
      ((text.drop start).take chunk_size) ::
        chunkFromFuel text chunk_size overlap fuel (next_start chunk_size overlap start)
    else []

/-- Model of `utils.chunk_text(text, chunk_size, overlap)` as the list of all yielded
chunks (defaults `chunk_size = DEFAULT_CHUNK_SIZE = 4000`, `overlap = 200`). -/
def chunk_text (text : List Char) (chunk_size : Nat := 4000) (overlap : Nat := 200) :
    List (List Char) :=
  chunkFromFuel text chunk_size overlap text.length 0

/-! ## Filesystem and parser interface

`tools.py` touches the world through `os`, `glob`, `open`, pandas, pypdf,
docx and `json`.  Those are opaque extractors per the specification; each is
a field of `FS`, keyed by the absolute path it is applied to.  An
`Except.error` result is a raised Python exception carrying `str(e)`.
All operations are read-only: none of them returns a modified `FS`. -/

structure FS where
  /-- Model of `os.path.exists` -/
  pathExists : String → Bool
  /-- Model of `os.path.isfile` -/
  isfile : String → Bool
  /-- Model of `os.path.isdir` -/
  isdir : String → Bool
  /-- Model of `os.path.getsize` / `st_size` -/
  getsize : String → Nat
  /-- Model of `datetime.utcfromtimestamp(stat.st_mtime).isoformat() + "Z"` -/
  mtimeIso : String → String
  /-- Model of `open(p, encoding="utf-8", errors="ignore").read()` for `.txt`/`.md` -/
  rawText : String → Except String (List Char)
  /-- Model of `pd.read_csv(p, nrows=200).to_csv(index=False)` -/
  csvText : String → Except String (List Char)
  /-- Model of `json.dumps(json.load(open(p)), indent=2, ensure_ascii=False)` -/
  jsonPretty : String → Except String (List Char)
  /-- page texts of `PdfReader(p)` joined with `"\n\n"` (per-page failures
  already degraded to empty strings inside the loop) -/
  pdfText : String → Except String (List Char)
  /-- paragraph texts of `docx.Document(p)` joined with `"\n"` -/
  docxText : String → Except String (List Char)
  /-- Model of `len(open(p, "rb").read(10000))` -/
  binarySample : String → Except String Nat
  /-- Model of `glob.glob(pattern_path, recursive=r)` -/
  glob : String → Bool → List String
  /-- Model of `os.listdir` -/
  listdir : String → List String
  /-- absolute paths `os.path.join(root, d)` for every `(root, dirs, _)` of
  `os.walk(p)` and `d ∈ dirs`, in walk order -/
  walkDirs : String → List String

/-- Model of `config.MAX_FILE_READ_BYTES = 20 * 1024 * 1024`. -/
def MAX_FILE_READ_BYTES : Nat := 20 * 1024 * 1024

/-- The marker `tools.read_file` appends when hard-truncating. -/
def TRUNCATION_MARKER : List Char := "\n\n...[truncated]...".toList

/-- The result dictionary of `tools.read_file` (when no exception escapes):
`NotFound` and `ReadError` are error records, `FileLarge` is a warning
record, `content` is the success record. -/
inductive ReadRecord where
  | notFound (path : String)
  | fileLarge (message : String) (relpath : String)
  | readError (message : String) (path : String)
  | content (relpath ext : String) (size : Nat) (text : List Char) (truncated : Bool)
deriving DecidableEq

/-- Model of `r.get("error")`: only the `NotFound` and `ReadError` records carry a
truthy `"error"` key (`FileLarge` uses `"warning"`). -/
def ReadRecord.getErrorKey : ReadRecord → Option String
  | .notFound _ => some "NotFound"
  | .readError _ _ => some "ReadError"
  | _ => none

/-- Model of `r.get("text", "")`. -/
def ReadRecord.getText : ReadRecord → List Char
  | .content _ _ _ text _ => text
  | _ => []

/-- The path `tools.read_file` and `tools.get_file_metadata` hand to
`safe_path`: relative paths are first joined to `SAFE_BASE_DIR`. -/
def readCandidate (cwd path : String) : String :=
  if isabs path then path else pathJoin (SAFE_BASE_DIR cwd) path

/-- Model of `tools.read_file(path, max_chars=20000)`.  `Except.error` is the
`PermissionError` propagating out of `safe_path`; every other failure is
returned as a record.  Note the `.json` branch slices its text to
`max_chars` before the final truncation check. -/
def read_file (fs : FS) (cwd path : String) (max_chars : Nat := 20000) :
    Except String ReadRecord :=
  match safe_path cwd (readCandidate cwd path) with
  | .error e => .error e
  | .ok file_path =>
    if fs.pathExists file_path = false then .ok (.notFound path)
    else if MAX_FILE_READ_BYTES < fs.getsize file_path then
      .ok (.fileLarge "File exceeds max read size" (relpath cwd file_path (SAFE_BASE_DIR cwd)))
    else
      let ext := get_extension file_path
      let textE : Except String (List Char) :=
        if ext = ".txt" ∨ ext = ".md" then fs.rawText file_path
        else if ext = ".csv" then fs.csvText file_path
        else if ext = ".json" then (fs.jsonPretty file_path).map (fun s => s.take max_chars)
        else if ext = ".pdf" then fs.pdfText file_path
        else if ext = ".docx" then fs.docxText file_path
        else (fs.binarySample file_path).map
          (fun n => ("<binary file, sampled " ++ toString n ++ " bytes>").toList)
      match textE with
      | .error e => .ok (.readError e path)
      | .ok text =>
        let truncated := max_chars < text.length
        let text := if max_chars < text.length then text.take max_chars ++ TRUNCATION_MARKER else text
        .ok (.content (relpath cwd file_path (SAFE_BASE_DIR cwd)) ext
          (fs.getsize file_path) text truncated)

/-- The result dictionary of `tools.list_files`. -/
inductive ListFilesResult where
  | notADirectory (message : String)
  | ok (directory : String) (count : Nat) (files : List String)
deriving DecidableEq

/-- Model of `tools.list_files(directory, pattern="*", recursive=False)`.  The
directory argument goes to `safe_path` unchanged, so a relative directory is
resolved against the working directory, not the sandbox root. -/
def list_files (fs : FS) (cwd directory : String) (pattern : String := "*")
    (recursive : Bool := false) : Except String ListFilesResult :=
  match safe_path cwd directory with
  | .error e => .error e
  | .ok dirpath =>
    if fs.isdir dirpath = false then .ok (.notADirectory (dirpath ++ " is not a directory"))
    else
      let pattern_path :=
        if recursive then pathJoin (pathJoin dirpath "**") pattern
        else pathJoin dirpath pattern
      let files := ((fs.glob pattern_path recursive).filter fs.isfile).map (abspath cwd)
      let rel := files.map (fun f => relpath cwd f (SAFE_BASE_DIR cwd))
      .ok (.ok (relpath cwd dirpath (SAFE_BASE_DIR cwd)) rel.length rel)

/-- The result dictionary of `tools.list_directories`. -/
inductive ListDirsResult where
  | notADirectory (message : String)
  | ok (directory : String) (count : Nat) (directories : List String)
deriving DecidableEq

/-- Model of `tools.list_directories(directory, recursive=False)`.  Like
`list_files`, the directory goes to `safe_path` unchanged; results are
sorted lexicographically. -/
def list_directories (fs : FS) (cwd directory : String) (recursive : Bool := false) :
    Except String ListDirsResult :=
  match safe_path cwd directory with
  | .error e => .error e
  | .ok dirpath =>
    if fs.isdir dirpath = false then .ok (.notADirectory (dirpath ++ " is not a directory"))
    else
      let dirs :=
        if recursive then (fs.walkDirs dirpath).map (abspath cwd)
        else ((((fs.listdir dirpath).map (fun item => pathJoin dirpath item)).filter
          fs.isdir).map (abspath cwd))
      let rel_dirs := (dirs.map (fun d => relpath cwd d (SAFE_BASE_DIR cwd))).mergeSort
        (fun a b => a ≤ b)
      .ok (.ok (relpath cwd dirpath (SAFE_BASE_DIR cwd)) rel_dirs.length rel_dirs)

/-- The result dictionary of `tools.get_file_metadata`. -/
inductive MetadataResult where
  | notFound (path : String)
  | ok (relp : String) (size : Nat) (modified ext : String)
deriving DecidableEq

/-- Model of `tools.get_file_metadata(path)`: relative paths are joined to
`SAFE_BASE_DIR` before `safe_path`. -/
def get_file_metadata (fs : FS) (cwd path : String) : Except String MetadataResult :=
  match safe_path cwd (readCandidate cwd path) with
  | .error e => .error e
  | .ok file_path =>
    if fs.pathExists file_path = false then .ok (.notFound path)
    else .ok (.ok (relpath cwd file_path (SAFE_BASE_DIR cwd)) (fs.getsize file_path)
      (fs.mtimeIso file_path) (get_extension file_path))

/-! ## Iterative multi-file reader (`tools.read_files_iterative`) -/

/-- Model of `utils.summarize_text` as an abstract completion call: given the
instruction and the text, it returns the summary or raises. -/
structure SummEnv where
  summarize : String → List Char → Except String (List Char)

/-- One entry of the `files` list returned by `read_files_iterative`:
`{"path": p, "error": r}` when `read_file` returned an error record,
`{"path": p, "error": str(e)}` when an exception was caught, and
`{"path": p, "summary": s, "chunks": n}` on success. -/
inductive FileEntry where
  | errorRecord (path : String) (r : ReadRecord)
  | errorMsg (path : String) (msg : String)
  | summary (path : String) (fileSummary : List Char) (chunks : Nat)
deriving DecidableEq

/-- The `"path"` field of a `files` entry. -/
def FileEntry.pathOf : FileEntry → String
  | .errorRecord p _ => p
  | .errorMsg p _ => p
  | .summary p _ _ => p

/-- The body of the per-path loop of `read_files_iterative`: the produced
`files` entry together with the `integrated_summaries` piece contributed (if
any).  Per-chunk summarization failures degrade to
`"[summarize_failed: e]"` strings; a raised `read_file` exception becomes an
`{"path", "error"}` entry. -/
def processPath (fs : FS) (senv : SummEnv) (cwd : String) (chunk_size : Nat)
    (p : String) : FileEntry × Option (List Char) :=
  match read_file fs cwd p 10000000 with
  | .error e => (.errorMsg p e, none)
  | .ok r =>
    match r.getErrorKey with
    | some _ => (.errorRecord p r, none)
    | none =>
      let text := r.getText
      let chunks := chunk_text text chunk_size
      let summaries := chunks.map (fun ch =>
        match senv.summarize ("Summarize the following chunk of " ++ p ++ ":") ch with
        | .ok s => s
        | .error e => ("[summarize_failed: " ++ e ++ "]").toList)
      let file_summary := List.intercalate ['\n'] (summaries.take 10)
      (.summary p file_summary chunks.length,
        some (("File: " ++ p ++ "\n").toList ++ file_summary))

/-- The result of `read_files_iterative`. -/
structure RFIResult where
  files : List FileEntry
  integrated_summary : List Char
deriving DecidableEq

/-- One iteration of the `for p in tqdm(paths)` loop: append the entry to
`results` and the piece (if any) to `integrated_summaries`. -/
def rfiStep (fs : FS) (senv : SummEnv) (cwd : String) (chunk_size : Nat)
    (acc : List FileEntry × List (List Char)) (p : String) :
    List FileEntry × List (List Char) :=
  let r := processPath fs senv cwd chunk_size p
  (acc.1 ++ [r.1], acc.2 ++ r.2.toList)

/-- Model of `tools.read_files_iterative(paths, chunk_size=4000)`: one `files` entry
per requested path, in request order; the integrated second summarization
pass falls back to the concatenation when it raises. -/
def read_files_iterative (fs : FS) (senv : SummEnv) (cwd : String)
    (paths : List String) (chunk_size : Nat := 4000) : RFIResult :=
  let folded := paths.foldl (rfiStep fs senv cwd chunk_size) ([], [])
  let integrated := List.intercalate "\n\n".toList folded.2
  let final_summary :=
    match senv.summarize
      "Integrate and summarize the following file summaries into a concise overview:"
      integrated with
    | .ok s => s
    | .error _ => integrated
  ⟨folded.1, final_summary⟩

/-! ## Search (`tools.search_in_files`) -/

/-- Model of `re` as an abstract engine: `compile` may raise on a bad pattern; a
compiled pattern maps a text to the list of non-overlapping match spans
`(m.start(), m.end())` of `finditer`, in order. -/
structure RegexEnv where
  compile : String → Except String (List Char → List (Nat × Nat))

/-- One entry of the `matches` list. -/
structure SearchMatch where
  path : String
  matched : List Char
  context : List Char
deriving DecidableEq

/-- The result of `search_in_files`; `matchList` is the `"matches"` field
(`matches` is a Lean keyword). -/
structure SearchResult where
  query : String
  matchList : List SearchMatch
deriving DecidableEq

/-- Python `text.find(sub)` on character lists: index of the first
occurrence, `none` when absent. -/
def findSub (hay needle : List Char) : Option Nat :=
  if needle.isPrefixOf hay then some 0
  else
    match hay with
    | [] => none
    | _ :: t => (findSub t needle).map (· + 1)

/-- The matches one file contributes in literal mode: only the first
(case-insensitive) occurrence, with context `text[max(0, idx-120) :
min(len(text), idx+len(query)+120)]`. -/
def literalFileMatches (query : String) (p : String) (text : List Char) :
    List SearchMatch :=
  match findSub (text.map Char.toLower) (query.toList.map Char.toLower) with
  | none => []
  | some idx =>
    let start := max 0 (idx - 120)
    let stop := min text.length (idx + query.length + 120)
    [⟨p, (text.drop idx).take query.length, (text.drop start).take (stop - start)⟩]

/-- The matches one file contributes in regex mode: one per `finditer` span,
with context `text[max(0, m.start()-120) : min(len(text), m.end()+120)]`. -/
def regexFileMatches (spans : List Char → List (Nat × Nat)) (p : String)
    (text : List Char) : List SearchMatch :=
  (spans text).map (fun se =>
    let start := max 0 (se.1 - 120)
    let stop := min text.length (se.2 + 120)
    ⟨p, (text.drop se.1).take (se.2 - se.1), (text.drop start).take (stop - start)⟩)

/-- The per-path loop of `search_in_files`: a raised `read_file` exception
or an error record skips the file; after each file the loop breaks once the
accumulated match count reaches `max_results`. -/
def searchLoop (fs : FS) (cwd query : String)
    (pattern : Option (List Char → List (Nat × Nat))) (use_regex : Bool)
    (max_results : Nat) : List String → List SearchMatch → List SearchMatch
  | [], found => found
  | p :: rest, found =>
    let found' :=
      match read_file fs cwd p 5000000 with
      | .error _ => found
      | .ok r =>
        match r.getErrorKey with
        | some _ => found
        | none =>
          let text := r.getText
          if use_regex then
            found ++ regexFileMatches (pattern.getD (fun _ => [])) p text
          else
            found ++ literalFileMatches query p text
    if max_results ≤ found'.length then found'
    else searchLoop fs cwd query pattern use_regex max_results rest found'

/-- Model of `tools.search_in_files(query, paths, use_regex=False, max_results=20)`.
`re.compile` runs (and may raise) only in regex mode; the final list is
clipped to `max_results`. -/
def search_in_files (fs : FS) (renv : RegexEnv) (cwd query : String)
    (paths : List String) (use_regex : Bool := false) (max_results : Nat := 20) :
    Except String SearchResult :=
  let compiled : Except String (Option (List Char → List (Nat × Nat))) :=
    if use_regex then (renv.compile query).map some else .ok none
  match compiled with
  | .error e => .error e
  | .ok pattern =>
    let ms := searchLoop fs cwd query pattern use_regex max_results paths []
    .ok ⟨query, ms.take max_results⟩

/-! ## Conversation loop (`main.py`)

The model provider is an oracle `List Message → AssistantMsg`; the decoded
form of a tool call's JSON argument string is an arbitrary type `α`, and
running a named tool on decoded arguments (`list_files(**arguments)` after
dispatch) is the abstract `ToolEnv.callTool`, whose `Except.error` is a
raised exception.  `json.loads` and `json.dumps` are abstract as well. -/

/-- One entry of `assistant_message.tool_calls`: the correlation id, the
function name and the raw JSON argument string. -/
structure ToolCall where
  id : String
  name : String
  arguments : String
deriving DecidableEq

/-- The assistant message returned by one completion call.  An absent
`tool_calls` attribute is the empty list (both are falsy). -/
structure AssistantMsg where
  content : Option String
  tool_calls : List ToolCall
deriving DecidableEq

/-- A message of the conversation history. -/
inductive Message where
  | system (content : String)
  | user (content : String)
  | assistant (content : Option String) (tool_calls : Option (List ToolCall))
  | tool (tool_call_id : String) (content : String)
deriving DecidableEq

/-- A tool's result dictionary as seen by the loop: an opaque success
record or the `{"error": message}` record built at the dispatch boundary. -/
inductive ToolResult where
  | record (payload : String)
  | errorRecord (message : String)
deriving DecidableEq

/-- The abstract environment of `execute_tool`: `jsonLoads` decodes an
argument string (`Except.error` is a raised `json.JSONDecodeError`),
`callTool name args` runs the named tool function with `**args`
(`Except.error` is any exception it raises), and `dumps` is `json.dumps` of
a result dictionary. -/
structure ToolEnv (α : Type) where
  jsonLoads : String → Except String α
  callTool : String → α → Except String ToolResult
  dumps : ToolResult → String

/-- Model of `main.execute_tool`: the name-dispatch chain with the unknown-tool
default, wrapped in `try/except` that converts any exception into an
`{"error": str(e)}` record. -/
def execute_tool {α : Type} (env : ToolEnv α) (tool_name : String) (arguments : α) :
    ToolResult :=
  let attempt : Except String ToolResult :=
    if tool_name = "list_files" then env.callTool "list_files" arguments
    else if tool_name = "list_directories" then env.callTool "list_directories" arguments
    else if tool_name = "get_file_metadata" then env.callTool "get_file_metadata" arguments
    else if tool_name = "read_file" then env.callTool "read_file" arguments
    else if tool_name = "read_files_iterative" then env.callTool "read_files_iterative" arguments
    else if tool_name = "search_in_files" then env.callTool "search_in_files" arguments
    else .ok (.errorRecord ("Unknown tool: " ++ tool_name))
  match attempt with
  | .ok r => r
  | .error e => .errorRecord e

/-- The `for tool_call in assistant_message.tool_calls` loop of
`process_conversation`: decode the argument string (`json.loads` is outside
every `try`, so a decode failure propagates, keeping the messages appended
so far), run `execute_tool`, and append one `role="tool"` message carrying
the call's id.  Returns the message list and the propagated exception, if
any. -/
def runToolCalls {α : Type} (env : ToolEnv α) :
    List ToolCall → List Message → List Message × Option String
  | [], messages => (messages, none)
  | tc :: rest, messages =>
    match env.jsonLoads tc.arguments with
    | .error e => (messages, some e)
    | .ok args =>
      let result := execute_tool env tc.name args
      runToolCalls env rest (messages ++ [Message.tool tc.id (env.dumps result)])

/-- The fallback string returned at the iteration cap when the last
assistant text is falsy. -/
def fallbackMessage : String :=
  "I apologize, but I couldn't complete the task within the iteration limit."

/-- How one round ends: a `return` with the final text (Python
`str | None`), or an exception propagating to the caller. -/
inductive LoopOutcome where
  | returned (value : Option String)
  | raised (exc : String)
deriving DecidableEq

/-- The `while iteration < max_iterations` loop of `process_conversation`
(lines 74-121 of `main.py`), with `fuel = max_iterations - iteration` many
round-trips left and the previous round's `assistant_message` (none before
the first round).  At the cap it returns the last assistant text, or
`fallbackMessage` when that text is `None` or empty (both falsy). -/
def conversationLoop {α : Type} (env : ToolEnv α)
    (oracle : List Message → AssistantMsg) :
    Nat → List Message → Option AssistantMsg → List Message × LoopOutcome
  | 0, messages, last =>
    match last with
    | none => (messages, .raised "NameError: name assistant_message is not defined")
    | some am =>
      match am.content with
      | none => (messages, .returned (some fallbackMessage))
      | some c =>
        if c = "" then (messages, .returned (some fallbackMessage))
        else (messages, .returned (some c))
  | fuel + 1, messages, _ =>
    let am := oracle messages
    let message_dict :=
      Message.assistant am.content (if am.tool_calls.isEmpty then none else some am.tool_calls)
    let messages' := messages ++ [message_dict]
    if am.tool_calls.isEmpty then
      (messages', .returned am.content)
    else
      match runToolCalls env am.tool_calls messages' with
      | (messages'', some exc) => (messages'', .raised exc)
      | (messages'', none) => conversationLoop env oracle fuel messages'' (some am)

/-- The first statement of `main.process_conversation` is
`max_iterations = max_iterations`.  The assignment makes `max_iterations`
local to the function, so the right-hand side reads a local variable that
has not been assigned yet and raises `UnboundLocalError`.  (The module
would in fact already fail to import: `main.py` does
`from config import agent_model, max_iterations` while `config.py` defines
`max_iteration`.) -/
def readUnassignedLocal : Except String Nat :=
  .error "UnboundLocalError: local variable max_iterations referenced before assignment"

/-- Model of `main.process_conversation(messages)`: read the (shadowed, unassigned)
local iteration bound, then run the loop.  The read always raises, so the
loop is never entered and no completion call is issued. -/
def process_conversation {α : Type} (env : ToolEnv α)
    (oracle : List Message → AssistantMsg) (messages : List Message) :
    List Message × LoopOutcome :=
  match readUnassignedLocal with
  | .error e => (messages, .raised e)
  | .ok max_iterations => conversationLoop env oracle max_iterations messages none

/-! ## Lemmas about the chunker -/

/-- Under the documented precondition `overlap < chunk_size`, the start of
the window always advances by exactly `chunk_size - overlap`. -/
theorem next_start_eq {chunk_size overlap : Nat} (hO : overlap < chunk_size) (start : Nat) :
    next_start chunk_size overlap start = start + (chunk_size - overlap) := by
  unfold next_start
  rw [if_pos (by omega)]
  omega

theorem chunkFromFuel_nil_of_le {text : List Char} {c o start : Nat}
    (h : text.length ≤ start) (fuel : Nat) : chunkFromFuel text c o fuel start = [] := by
  cases fuel with
  | zero => rfl
  | succ f => simp only [chunkFromFuel, if_neg (Nat.not_lt.mpr h)]

/-- With a positive chunk size the start strictly increases on every step. -/
theorem next_start_gt {c o : Nat} (hc : 1 ≤ c) (start : Nat) :
    start < next_start c o start := by
  simp only [next_start]
  split <;> omega

/-- Closed form of the `i`-th chunk: the window starting at
`start + i * (chunk_size - overlap)`, clipped to the text. -/
theorem chunkFromFuel_get {text : List Char} {c o : Nat} (hO : o < c) :
    ∀ fuel start i, text.length - start ≤ fuel →
      (chunkFromFuel text c o fuel start).get? i =
        if start + i * (c - o) < text.length then
          some ((text.drop (start + i * (c - o))).take c)
        else none := by
  intro fuel
  induction fuel with
  | zero =>
    intro start i h
    rw [chunkFromFuel_nil_of_le (by omega)]
    rw [if_neg]
    · rfl
    · generalize i * (c - o) = m
      omega
  | succ f ih =>
    intro start i h
    by_cases hs : start < text.length
    · simp only [chunkFromFuel, if_pos hs, next_start_eq hO]
      cases i with
      | zero =>
        simp only [List.get?]
        rw [if_pos (by simpa using hs)]
        simp
      | succ j =>
        simp only [List.get?]
        have hstep : 1 ≤ c - o := by omega
        rw [ih (start + (c - o)) j (by omega)]
        have harith : start + (c - o) + j * (c - o) = start + (j + 1) * (c - o) := by
          rw [Nat.succ_mul]
          omega
        rw [harith]
    · rw [chunkFromFuel_nil_of_le (by omega)]
      rw [if_neg]
      · rfl
      · generalize i * (c - o) = m
        omega

/-- Dropping the first `overlap` characters of every chunk and concatenating
recovers the text from `start + overlap` on. -/
theorem chunkFromFuel_flatten_drop {text : List Char} {c o : Nat} (hO : o < c) :
    ∀ fuel start, text.length - start ≤ fuel →
      ((chunkFromFuel text c o fuel start).map (List.drop o)).flatten =
        text.drop (start + o) := by
  intro fuel
  induction fuel with
  | zero =>
    intro start h
    rw [chunkFromFuel_nil_of_le (by omega)]
    simp only [List.map_nil, List.flatten_nil]
    rw [eq_comm, List.drop_eq_nil_iff]
    omega
  | succ f ih =>
    intro start h
    by_cases hs : start < text.length
    · simp only [chunkFromFuel, if_pos hs, next_start_eq hO, List.map_cons, List.flatten_cons]
      rw [ih (start + (c - o)) (by omega)]
      rw [List.drop_take, List.drop_drop]
      have h2 : List.drop (start + (c - o) + o) text =
          List.drop (c - o) (List.drop (start + o) text) := by
        rw [List.drop_drop]
        congr 1
        omega
      rw [h2]
      exact List.take_append_drop _ _
    · rw [chunkFromFuel_nil_of_le (by omega)]
      simp only [List.map_nil, List.flatten_nil]
      rw [eq_comm, List.drop_eq_nil_iff]
      omega

/-- The chunk list never has more elements than fuel was provided. -/
theorem chunkFromFuel_length_le {text : List Char} {c o : Nat} :
    ∀ fuel start, (chunkFromFuel text c o fuel start).length ≤ fuel := by
  intro fuel
  induction fuel with
  | zero => intro start; rfl
  | succ f ih =>
    intro start
    by_cases hs : start < text.length
    · simp only [chunkFromFuel, if_pos hs, List.length_cons]
      exact Nat.succ_le_succ (ih _)
    · simp only [chunkFromFuel, if_neg hs, List.length_nil]
      omega

/-- With a positive chunk size, any fuel of at least `text.length - start`
units produces the same chunk list: the recursion has terminated by then. -/
theorem chunkFromFuel_fuel_indep {text : List Char} {c o : Nat} (hc : 1 ≤ c) :
    ∀ fuel fuel' start, text.length - start ≤ fuel → text.length - start ≤ fuel' →
      chunkFromFuel text c o fuel start = chunkFromFuel text c o fuel' start := by
  intro fuel
  induction fuel with
  | zero =>
    intro fuel' start h h'
    rw [chunkFromFuel_nil_of_le (by omega), chunkFromFuel_nil_of_le (by omega)]
  | succ f ih =>
    intro fuel' start h h'
    by_cases hs : start < text.length
    · cases fuel' with
      | zero => omega
      | succ g =>
        simp only [chunkFromFuel, if_pos hs]
        have hgt := next_start_gt (o := o) hc start
        rw [ih g (next_start c o start) (by omega) (by omega)]
    · rw [chunkFromFuel_nil_of_le (by omega), chunkFromFuel_nil_of_le (by omega)]

/-! ## Claim theorems about the chunker -/

/-- C3: for every text `T` and `chunk_size C`, `overlap O` with
`0 ≤ O < C`, `chunk_text` yields at most `ceil(len(T) / (C - O))` chunks;
the `i`-th chunk is the window of (at most) `C` characters starting at
`i * (C - O)` — so windows advance by `C - O` characters and the final
window may be shorter — and concatenating the first chunk with the part of
each later chunk after its first `O` characters reconstructs `T` exactly. -/
theorem chunk_text_advance_bound_reconstruct (text : List Char) (C O : Nat) (hO : O < C) :
    (chunk_text text C O).length ≤ (text.length + (C - O) - 1) / (C - O) ∧
    (∀ i : Nat, (chunk_text text C O).get? i =
      if i * (C - O) < text.length then
        some ((text.drop (i * (C - O))).take C)
      else none) ∧
    (chunk_text text C O).headD [] ++
      (((chunk_text text C O).drop 1).map (List.drop O)).flatten = text := by
  have hunfold : chunk_text text C O = chunkFromFuel text C O text.length 0 := rfl
  refine ⟨?_, ?_, ?_⟩
  · have hs : 0 < C - O := by omega
    have hdm := Nat.div_add_mod (text.length + (C - O) - 1) (C - O)
    have hmod : (text.length + (C - O) - 1) % (C - O) < C - O :=
      Nat.mod_lt _ hs
    have hK : text.length ≤ (C - O) * ((text.length + (C - O) - 1) / (C - O)) := by
      omega
    by_contra hlen
    push_neg at hlen
    have hne : (chunk_text text C O).get? ((text.length + (C - O) - 1) / (C - O)) ≠ none := by
      rw [Ne, List.get?_eq_none]
      omega
    rw [hunfold, chunkFromFuel_get hO text.length 0 _ (by omega)] at hne
    by_cases hcond : 0 + ((text.length + (C - O) - 1) / (C - O)) * (C - O) < text.length
    · rw [Nat.zero_add, Nat.mul_comm] at hcond
      omega
    · rw [if_neg hcond] at hne
      exact hne rfl
  · intro i
    rw [hunfold, chunkFromFuel_get hO text.length 0 i (by omega)]
    simp
  · rcases Nat.eq_zero_or_pos text.length with hL | hL
    · have htext : text = [] := List.length_eq_zero.mp hL
      subst htext
      simp [chunk_text, chunkFromFuel]
    · obtain ⟨n, hn⟩ : ∃ n, text.length = n + 1 := ⟨text.length - 1, by omega⟩
      rw [hunfold, hn]
      simp only [chunkFromFuel, if_pos (show 0 < text.length by omega), next_start_eq hO]
      simp only [List.headD_cons, List.drop_succ_cons, List.drop_zero]
      rw [chunkFromFuel_flatten_drop hO n (0 + (C - O)) (by omega)]
      have hc : 0 + (C - O) + O = C := by omega
      rw [hc]
      exact List.take_append_drop _ _

/-- Witness for C3 at a concrete input. -/
theorem chunk_text_advance_bound_reconstruct_witness :
    2 < 4 ∧
    (chunk_text "abcdefgh".toList 4 2).headD [] ++
      (((chunk_text "abcdefgh".toList 4 2).drop 1).map (List.drop 2)).flatten =
        "abcdefgh".toList :=
  ⟨by decide, (chunk_text_advance_bound_reconstruct "abcdefgh".toList 4 2 (by decide)).2.2⟩

/-- C10: for every text, every `chunk_size ≥ 1` and every `overlap`
(including `overlap ≥ chunk_size`), the chunk sequence is finite: when
advancing by `chunk_size - overlap` would not move past the current start,
the next start jumps to the current window end `start + chunk_size`
instead, so the start strictly increases on every step; `text.length` units
of fuel are always enough (any larger fuel yields the same list), and the
number of chunks is at most `text.length`. -/
theorem chunk_text_total_any_overlap (text : List Char) (c o : Nat) (hc : 1 ≤ c) :
    (∀ start : Nat, start + c - o ≤ start → next_start c o start = start + c) ∧
    (∀ start : Nat, start < start + c - o → next_start c o start = start + c - o) ∧
    (∀ start : Nat, start < next_start c o start) ∧
    (∀ fuel : Nat, text.length ≤ fuel →
      chunkFromFuel text c o fuel 0 = chunk_text text c o) ∧
    (chunk_text text c o).length ≤ text.length := by
  refine ⟨?_, ?_, ?_, ?_, ?_⟩
  · intro start hle
    simp only [next_start]
    rw [if_neg (by omega)]
  · intro start hlt
    simp only [next_start]
    rw [if_pos (by omega)]
  · exact next_start_gt hc
  · intro fuel hfuel
    exact chunkFromFuel_fuel_indep hc fuel text.length 0 (by omega) (by omega)
  · exact chunkFromFuel_length_le text.length 0

/-- Witness for C10 at a concrete input with `overlap > chunk_size`. -/
theorem chunk_text_total_any_overlap_witness :
    1 ≤ 3 ∧ (chunk_text "hello".toList 3 5).length ≤ "hello".toList.length :=
  ⟨by decide, (chunk_text_total_any_overlap "hello".toList 3 5 (by decide)).2.2.2.2⟩

/-! ## Lemmas about `safe_path` and the path-accepting operations -/

theorem safe_path_error {cwd p : String}
    (h : strStartsWith (abspath cwd p) (abspath cwd (SAFE_BASE_DIR cwd)) = false) :
    safe_path cwd p = .error (permError p (abspath cwd (SAFE_BASE_DIR cwd))) := by
  simp [safe_path, h]

theorem safe_path_ok {cwd p : String}
    (h : strStartsWith (abspath cwd p) (abspath cwd (SAFE_BASE_DIR cwd)) = true) :
    safe_path cwd p = .ok (abspath cwd p) := by
  simp [safe_path, h]

theorem read_file_perm {fs : FS} {cwd p : String} {mc : Nat}
    (h : strStartsWith (abspath cwd (readCandidate cwd p))
      (abspath cwd (SAFE_BASE_DIR cwd)) = false) :
    read_file fs cwd p mc =
      .error (permError (readCandidate cwd p) (abspath cwd (SAFE_BASE_DIR cwd))) := by
  unfold read_file
  rw [safe_path_error h]

theorem get_file_metadata_perm {fs : FS} {cwd p : String}
    (h : strStartsWith (abspath cwd (readCandidate cwd p))
      (abspath cwd (SAFE_BASE_DIR cwd)) = false) :
    get_file_metadata fs cwd p =
      .error (permError (readCandidate cwd p) (abspath cwd (SAFE_BASE_DIR cwd))) := by
  unfold get_file_metadata
  rw [safe_path_error h]

theorem list_files_perm {fs : FS} {cwd p : String} {pattern : String} {recursive : Bool}
    (h : strStartsWith (abspath cwd p) (abspath cwd (SAFE_BASE_DIR cwd)) = false) :
    list_files fs cwd p pattern recursive =
      .error (permError p (abspath cwd (SAFE_BASE_DIR cwd))) := by
  unfold list_files
  rw [safe_path_error h]

theorem list_directories_perm {fs : FS} {cwd p : String} {recursive : Bool}
    (h : strStartsWith (abspath cwd p) (abspath cwd (SAFE_BASE_DIR cwd)) = false) :
    list_directories fs cwd p recursive =
      .error (permError p (abspath cwd (SAFE_BASE_DIR cwd))) := by
  unfold list_directories
  rw [safe_path_error h]

theorem processPath_perm {fs : FS} {senv : SummEnv} {cwd p : String} {cs : Nat}
    (h : strStartsWith (abspath cwd (readCandidate cwd p))
      (abspath cwd (SAFE_BASE_DIR cwd)) = false) :
    processPath fs senv cwd cs p =
      (.errorMsg p (permError (readCandidate cwd p) (abspath cwd (SAFE_BASE_DIR cwd))),
        none) := by
  unfold processPath
  rw [read_file_perm h]

/-- The `files` component of `read_files_iterative` is the per-path map of
`processPath`, in request order. -/
theorem rfi_foldl_fst (fs : FS) (senv : SummEnv) (cwd : String) (cs : Nat) :
    ∀ (paths : List String) (acc : List FileEntry × List (List Char)),
      (paths.foldl (rfiStep fs senv cwd cs) acc).1 =
        acc.1 ++ paths.map (fun p => (processPath fs senv cwd cs p).1) := by
  intro paths
  induction paths with
  | nil => intro acc; simp
  | cons p ps ih =>
    intro acc
    rw [List.foldl_cons, ih]
    simp [rfiStep]

theorem rfi_files_eq (fs : FS) (senv : SummEnv) (cwd : String) (paths : List String)
    (cs : Nat) :
    (read_files_iterative fs senv cwd paths cs).files =
      paths.map (fun p => (processPath fs senv cwd cs p).1) := by
  unfold read_files_iterative
  simp [rfi_foldl_fst]

/-- Under a failed prefix check `read_file` raises, so `search_in_files`
skips the path without contributing matches. -/
theorem searchLoop_perm_skip {fs : FS} {cwd q : String}
    {pattern : Option (List Char → List (Nat × Nat))} {use_regex : Bool}
    {mr : Nat} {p : String} {acc : List SearchMatch}
    (h : strStartsWith (abspath cwd (readCandidate cwd p))
      (abspath cwd (SAFE_BASE_DIR cwd)) = false) :
    searchLoop fs cwd q pattern use_regex mr [p] acc =
      searchLoop fs cwd q pattern use_regex mr [] acc := by
  have h5 : read_file fs cwd p 5000000 =
      .error (permError (readCandidate cwd p) (abspath cwd (SAFE_BASE_DIR cwd))) :=
    read_file_perm h
  simp only [searchLoop, h5]
  split <;> rfl

/-- Once the prefix check passes, `read_file` never raises: every other
failure (absence, size, parse errors) is returned as a record. -/
theorem read_file_no_raise {fs : FS} {cwd p : String} {mc : Nat}
    (h : strStartsWith (abspath cwd (readCandidate cwd p))
      (abspath cwd (SAFE_BASE_DIR cwd)) = true) :
    ∃ r, read_file fs cwd p mc = .ok r := by
  unfold read_file
  rw [safe_path_ok h]
  dsimp only
  split
  · exact ⟨_, rfl⟩
  · split
    · exact ⟨_, rfl⟩
    · split
      · exact ⟨_, rfl⟩
      · exact ⟨_, rfl⟩

/-- Once the prefix check passes, `get_file_metadata` never raises. -/
theorem get_file_metadata_no_raise {fs : FS} {cwd p : String}
    (h : strStartsWith (abspath cwd (readCandidate cwd p))
      (abspath cwd (SAFE_BASE_DIR cwd)) = true) :
    ∃ m, get_file_metadata fs cwd p = .ok m := by
  unfold get_file_metadata
  rw [safe_path_ok h]
  dsimp only
  split
  · exact ⟨_, rfl⟩
  · exact ⟨_, rfl⟩

/-! ## Concrete environments for counterexamples and witnesses

The working directory in all concrete scenarios is `/w`, so the sandbox
root `SAFE_BASE_DIR` is `/w/sample_dir`. -/

deriving instance DecidableEq for Except

/-- A filesystem with nothing in it; extractors raise. -/
def fsBlank : FS where
  pathExists := fun _ => false
  isfile := fun _ => false
  isdir := fun _ => false
  getsize := fun _ => 0
  mtimeIso := fun _ => ""
  rawText := fun _ => .error "unused"
  csvText := fun _ => .error "unused"
  jsonPretty := fun _ => .error "unused"
  pdfText := fun _ => .error "unused"
  docxText := fun _ => .error "unused"
  binarySample := fun _ => .error "unused"
  glob := fun _ _ => []
  listdir := fun _ => []
  walkDirs := fun _ => []

/-- A summarizer that echoes its input text. -/
def summEcho : SummEnv where
  summarize := fun _ t => .ok t

/-- A regex engine that is never consulted in literal mode. -/
def renvBlank : RegexEnv where
  compile := fun _ => .error "unused"

/-- A filesystem holding `/w/sample_dir_evil/secret.txt`, a text file in a
sibling directory of the sandbox root whose name extends the root's. -/
def fsSibling : FS :=
  { fsBlank with
    pathExists := fun p => p = "/w/sample_dir_evil/secret.txt"
    isfile := fun p => p = "/w/sample_dir_evil/secret.txt"
    getsize := fun _ => 5
    rawText := fun p =>
      if p = "/w/sample_dir_evil/secret.txt" then .ok "hello".toList
      else .error "unused" }

/-- A filesystem where the sandbox root contains a directory `reports`. -/
def fsReports : FS :=
  { fsBlank with
    isdir := fun p => p = "/w/sample_dir/reports" }

/-! ## Claims C2 and C9: sandbox containment and path resolution -/

/-- C2 counterexample: the canonical path `/w/sample_dir_evil/secret.txt`
lies outside the sandbox root `/w/sample_dir`, yet `safe_path` accepts it —
the check is a string-prefix test, and the sibling directory's name extends
the root's — and `read_file` returns its content instead of failing with a
permission error. -/
theorem sandbox_escape_sibling_counterexample :
    specInsideRoot "/w" "/w/sample_dir_evil/secret.txt" = false ∧
    safe_path "/w" "/w/sample_dir_evil/secret.txt" =
      Except.ok "/w/sample_dir_evil/secret.txt" ∧
    read_file fsSibling "/w" "/w/sample_dir_evil/secret.txt" 20000 =
      Except.ok (ReadRecord.content "../sample_dir_evil/secret.txt" ".txt" 5
        "hello".toList false) :=
  ⟨by decide, by decide, by decide⟩

/-- C2 as amended: for every path whose canonical (per-operation) resolved
form does not extend the canonical sandbox root as a string prefix,
`safe_path` raises a permission error; `list_files`, `list_directories`,
`get_file_metadata` and `read_file` fail with it; `read_files_iterative`
records it as that path's error entry; and `search_in_files` silently skips
the path.  (Canonical paths outside the root that do share the root's
string prefix are accepted, per the counterexample; no operation mutates
the filesystem — the embedding's operations never produce a new `FS`.) -/
theorem sandbox_prefix_gate (fs : FS) (senv : SummEnv) (renv : RegexEnv)
    (cwd p pattern q : String) (recursive : Bool) (mc cs mr : Nat) :
    (strStartsWith (abspath cwd p) (abspath cwd (SAFE_BASE_DIR cwd)) = false →
      safe_path cwd p = .error (permError p (abspath cwd (SAFE_BASE_DIR cwd))) ∧
      list_files fs cwd p pattern recursive =
        .error (permError p (abspath cwd (SAFE_BASE_DIR cwd))) ∧
      list_directories fs cwd p recursive =
        .error (permError p (abspath cwd (SAFE_BASE_DIR cwd)))) ∧
    (strStartsWith (abspath cwd (readCandidate cwd p))
        (abspath cwd (SAFE_BASE_DIR cwd)) = false →
      get_file_metadata fs cwd p =
        .error (permError (readCandidate cwd p) (abspath cwd (SAFE_BASE_DIR cwd))) ∧
      read_file fs cwd p mc =
        .error (permError (readCandidate cwd p) (abspath cwd (SAFE_BASE_DIR cwd))) ∧
      (read_files_iterative fs senv cwd [p] cs).files =
        [FileEntry.errorMsg p
          (permError (readCandidate cwd p) (abspath cwd (SAFE_BASE_DIR cwd)))] ∧
      search_in_files fs renv cwd q [p] false mr = .ok ⟨q, []⟩) := by
  constructor
  · intro h
    exact ⟨safe_path_error h, list_files_perm h, list_directories_perm h⟩
  · intro h
    refine ⟨get_file_metadata_perm h, read_file_perm h, ?_, ?_⟩
    · rw [rfi_files_eq]
      simp [processPath_perm h]
    · unfold search_in_files
      dsimp only
      rw [if_neg Bool.false_ne_true]
      dsimp only
      rw [searchLoop_perm_skip h]
      simp [searchLoop]

/-- Witness for the amended C2 at the concrete outside path `/etc/passwd`. -/
theorem sandbox_prefix_gate_witness :
    strStartsWith (abspath "/w" (readCandidate "/w" "/etc/passwd"))
      (abspath "/w" (SAFE_BASE_DIR "/w")) = false ∧
    read_file fsBlank "/w" "/etc/passwd" 20000 =
      .error (permError (readCandidate "/w" "/etc/passwd")
        (abspath "/w" (SAFE_BASE_DIR "/w"))) ∧
    search_in_files fsBlank renvBlank "/w" "foo" ["/etc/passwd"] false 20 =
      .ok ⟨"foo", []⟩ :=
  ⟨by decide,
    ((sandbox_prefix_gate fsBlank summEcho renvBlank "/w" "/etc/passwd" "*" "foo"
      false 20000 4000 20).2 (by decide)).2.1,
    ((sandbox_prefix_gate fsBlank summEcho renvBlank "/w" "/etc/passwd" "*" "foo"
      false 20000 4000 20).2 (by decide)).2.2.2⟩

/-- C9 counterexample: the sandbox root contains a directory `reports`, but
`list_files("reports")` (and `list_directories`) hands the relative path to
`safe_path` unchanged, which resolves it against the process working
directory `/w` — not the sandbox root — and so rejects it with a permission
error instead of listing `/w/sample_dir/reports`. -/
theorem list_files_cwd_relative_counterexample :
    fsReports.isdir (pathJoin (SAFE_BASE_DIR "/w") "reports") = true ∧
    list_files fsReports "/w" "reports" "*" false =
      Except.error (permError "reports" "/w/sample_dir") ∧
    list_directories fsReports "/w" "reports" false =
      Except.error (permError "reports" "/w/sample_dir") :=
  ⟨by decide, by decide, by decide⟩

/-- C9 as amended: `get_file_metadata` and `read_file` (and through the
latter `read_files_iterative` and `search_in_files`) join relative paths to
the sandbox root and take absolute paths as given, succeeding in resolution
(no permission error) exactly when the canonical result extends the
canonical root as a string prefix; `list_files` and `list_directories`
instead resolve their directory argument against the process working
directory and fail with a permission error when that resolution does not
extend the root. -/
theorem path_resolution_per_operation (fs : FS) (cwd p pattern : String)
    (recursive : Bool) (mc : Nat) :
    (isabs p = false → readCandidate cwd p = pathJoin (SAFE_BASE_DIR cwd) p) ∧
    (isabs p = true → readCandidate cwd p = p) ∧
    (strStartsWith (abspath cwd (readCandidate cwd p))
        (abspath cwd (SAFE_BASE_DIR cwd)) = true →
      (∃ r, read_file fs cwd p mc = .ok r) ∧
      (∃ m, get_file_metadata fs cwd p = .ok m)) ∧
    (strStartsWith (abspath cwd (readCandidate cwd p))
        (abspath cwd (SAFE_BASE_DIR cwd)) = false →
      read_file fs cwd p mc =
        .error (permError (readCandidate cwd p) (abspath cwd (SAFE_BASE_DIR cwd)))) ∧
    (strStartsWith (abspath cwd p) (abspath cwd (SAFE_BASE_DIR cwd)) = false →
      list_files fs cwd p pattern recursive =
        .error (permError p (abspath cwd (SAFE_BASE_DIR cwd))) ∧
      list_directories fs cwd p recursive =
        .error (permError p (abspath cwd (SAFE_BASE_DIR cwd)))) := by
  refine ⟨?_, ?_, ?_, ?_, ?_⟩
  · intro h
    simp [readCandidate, h]
  · intro h
    simp [readCandidate, h]
  · intro h
    exact ⟨read_file_no_raise h, get_file_metadata_no_raise h⟩
  · intro h
    exact read_file_perm h
  · intro h
    exact ⟨list_files_perm h, list_directories_perm h⟩

/-- Witness for the amended C9 at the concrete relative path `notes.txt`. -/
theorem path_resolution_per_operation_witness :
    isabs "notes.txt" = false ∧
    readCandidate "/w" "notes.txt" = pathJoin (SAFE_BASE_DIR "/w") "notes.txt" ∧
    (∃ r, read_file fsBlank "/w" "notes.txt" 20000 = .ok r) :=
  ⟨by decide,
    (path_resolution_per_operation fsBlank "/w" "notes.txt" "*" false 20000).1 (by decide),
    ((path_resolution_per_operation fsBlank "/w" "notes.txt" "*" false 20000).2.2.1
      (by decide)).1⟩

/-! ## Claim C6: one entry per requested path -/

theorem processPath_pathOf (fs : FS) (senv : SummEnv) (cwd : String) (cs : Nat)
    (p : String) : ((processPath fs senv cwd cs p).1).pathOf = p := by
  unfold processPath
  split
  · rfl
  · split
    · rfl
    · rfl

/-- C6: for every list of `k` input paths, `read_files_iterative` returns a
`files` list with exactly `k` entries, one per requested path in request
order, each entry a summary record or an error record, regardless of
per-file or per-chunk failures.  (The hypothesis `1 ≤ chunk_size` marks the
domain on which the fuel-based chunker model is faithful; with
`chunk_size = 0` and a nonempty file the Python generator itself never
terminates.) -/
theorem read_files_iterative_one_entry_per_path (fs : FS) (senv : SummEnv)
    (cwd : String) (paths : List String) (cs : Nat) (hcs : 1 ≤ cs) :
    ((read_files_iterative fs senv cwd paths cs).files).map FileEntry.pathOf = paths ∧
    (read_files_iterative fs senv cwd paths cs).files.length = paths.length ∧
    ∀ e ∈ (read_files_iterative fs senv cwd paths cs).files,
      (∃ a r, e = FileEntry.errorRecord a r) ∨
      (∃ a m, e = FileEntry.errorMsg a m) ∨
      (∃ a s n, e = FileEntry.summary a s n) := by
  have hfe := rfi_files_eq fs senv cwd paths cs
  refine ⟨?_, ?_, ?_⟩
  · rw [hfe, List.map_map]
    have hcomp : FileEntry.pathOf ∘ (fun p => (processPath fs senv cwd cs p).1) = id := by
      funext p
      exact processPath_pathOf fs senv cwd cs p
    rw [hcomp, List.map_id]
  · rw [hfe, List.length_map]
  · intro e _
    cases e with
    | errorRecord a r => exact Or.inl ⟨a, r, rfl⟩
    | errorMsg a m => exact Or.inr (Or.inl ⟨a, m, rfl⟩)
    | summary a s n => exact Or.inr (Or.inr ⟨a, s, n, rfl⟩)

/-- Witness for C6 on a concrete two-path batch (one path inside the root
and absent, one escaping it). -/
theorem read_files_iterative_one_entry_per_path_witness :
    1 ≤ 4000 ∧
    ((read_files_iterative fsBlank summEcho "/w" ["a.txt", "/etc/passwd"] 4000).files).map
      FileEntry.pathOf = ["a.txt", "/etc/passwd"] :=
  ⟨by decide,
    (read_files_iterative_one_entry_per_path fsBlank summEcho "/w"
      ["a.txt", "/etc/passwd"] 4000 (by decide)).1⟩

/-! ## Claim C7: `read_file` truncation of `.json` files -/

/-- A filesystem holding `/w/sample_dir/big.json`, 400 bytes on disk, whose
pretty-printed JSON text is 500 characters long. -/
def fsBigJson : FS :=
  { fsBlank with
    pathExists := fun p => p = "/w/sample_dir/big.json"
    getsize := fun _ => 400
    jsonPretty := fun p =>
      if p = "/w/sample_dir/big.json" then .ok (List.replicate 500 'a')
      else .error "unused" }

set_option maxRecDepth 4000 in
/-- C7 counterexample: reading a 500-character pretty-printed JSON file with
`max_chars = 50` returns `truncated := false` and the bare first 50
characters — no truncation marker — because the `.json` branch slices the
text to `max_chars` before the truncation check ever sees it. -/
theorem read_file_json_truncation_counterexample :
    50 < (List.replicate 500 'a').length ∧
    read_file fsBigJson "/w" "big.json" 50 =
      Except.ok (ReadRecord.content "big.json" ".json" 400
        (List.replicate 50 'a') false) :=
  ⟨by decide, by decide⟩

/-- C7 as amended: for every `.json` file whose pretty-printed text is
longer than `max_chars`, `read_file` returns the first `max_chars`
characters with `truncated := false` and no truncation marker, because the
`.json` branch pre-slices the text to `max_chars` before the truncation
check. -/
theorem read_file_json_pre_slice (fs : FS) (cwd p : String) (mc : Nat)
    (fp : String) (pretty : List Char)
    (h1 : safe_path cwd (readCandidate cwd p) = .ok fp)
    (h2 : fs.pathExists fp = true)
    (h3 : fs.getsize fp ≤ MAX_FILE_READ_BYTES)
    (h4 : get_extension fp = ".json")
    (h5 : fs.jsonPretty fp = .ok pretty)
    (h6 : mc < pretty.length) :
    read_file fs cwd p mc =
      .ok (.content (relpath cwd fp (SAFE_BASE_DIR cwd)) ".json" (fs.getsize fp)
        (pretty.take mc) false) ∧
    (pretty.take mc).length = mc := by
  have hlen : (pretty.take mc).length = mc := by
    rw [List.length_take]
    omega
  refine ⟨?_, hlen⟩
  have hsize : ¬ (MAX_FILE_READ_BYTES < fs.getsize fp) := by omega
  unfold read_file
  rw [h1]
  simp only [h2, h4, h5, hsize]
  have hfalse : ¬ (mc < (List.take mc pretty).length) := by omega
  simp [h2, h4, h5, hsize, Except.map, hfalse]

set_option maxRecDepth 4000 in
/-- Witness for the amended C7 at the concrete `big.json` scenario. -/
theorem read_file_json_pre_slice_witness :
    read_file fsBigJson "/w" "big.json" 50 =
      .ok (.content (relpath "/w" "/w/sample_dir/big.json" (SAFE_BASE_DIR "/w")) ".json"
        (fsBigJson.getsize "/w/sample_dir/big.json")
        ((List.replicate 500 'a').take 50) false) :=
  (read_file_json_pre_slice fsBigJson "/w" "big.json" 50 "/w/sample_dir/big.json"
    (List.replicate 500 'a') (by decide) (by decide) (by decide) (by decide)
    (by decide) (by decide)).1

/-! ## Claim C8: literal search, result cap and context window -/

/-- A text of 286 characters containing `foo` twice, at indices 150 and 273,
with at least 120 characters on either side of the first occurrence. -/
def fooText : List Char :=
  List.replicate 150 'x' ++ "foo".toList ++ List.replicate 120 'x' ++
    "foo".toList ++ List.replicate 10 'x'

/-- A filesystem holding `/w/sample_dir/a.txt` with `fooText` as content. -/
def fsFooTwice : FS :=
  { fsBlank with
    pathExists := fun p => p = "/w/sample_dir/a.txt"
    getsize := fun _ => 286
    rawText := fun p =>
      if p = "/w/sample_dir/a.txt" then .ok fooText else .error "unused" }

set_option maxRecDepth 8000 in
/-- C8 counterexample: on a file containing `foo` twice, literal search with
`max_results = 1` does return exactly one match, but its context window is
`text[idx-120 : idx+len("foo")+120]` — 243 characters here — exceeding the
claimed 240-character bound. -/
theorem search_context_window_counterexample :
    (findSub ((fooText.drop 153).map Char.toLower) "foo".toList).isSome = true ∧
    search_in_files fsFooTwice renvBlank "/w" "foo" ["a.txt"] false 1 =
      Except.ok ⟨"foo", [⟨"a.txt", "foo".toList, (fooText.drop 30).take 243⟩]⟩ ∧
    ((fooText.drop 30).take 243).length = 243 ∧ ¬ (243 ≤ 240) :=
  ⟨by decide, by decide, by decide, by decide⟩

/-- C8 as amended: literal search with `max_results = 1` on a single file
whose text contains the query (even twice) returns exactly one match, and
every returned match carries a context window of at most
`len(query) + 240` characters — 120 characters before the match start and
120 after the match end, clipped at text boundaries. -/
theorem search_literal_single_file (fs : FS) (renv : RegexEnv) (cwd q p : String)
    (r : ReadRecord) (idx : Nat)
    (hread : read_file fs cwd p 5000000 = .ok r)
    (hkey : r.getErrorKey = none)
    (hfind : findSub (r.getText.map Char.toLower) (q.toList.map Char.toLower) = some idx) :
    search_in_files fs renv cwd q [p] false 1 =
      .ok ⟨q, literalFileMatches q p r.getText⟩ ∧
    (literalFileMatches q p r.getText).length = 1 ∧
    ∀ m ∈ literalFileMatches q p r.getText, m.context.length ≤ q.length + 240 := by
  have hlfm : literalFileMatches q p r.getText =
      [⟨p, (r.getText.drop idx).take q.length,
        (r.getText.drop (max 0 (idx - 120))).take
          (min r.getText.length (idx + q.length + 120) - max 0 (idx - 120))⟩] := by
    unfold literalFileMatches
    rw [hfind]
  refine ⟨?_, ?_, ?_⟩
  · unfold search_in_files
    dsimp only
    rw [if_neg Bool.false_ne_true]
    dsimp only
    simp only [searchLoop, hread, hkey, hlfm]
    simp
  · rw [hlfm]
    rfl
  · intro m hm
    rw [hlfm] at hm
    simp only [List.mem_singleton] at hm
    subst hm
    simp only [List.length_take, List.length_drop]
    omega

set_option maxRecDepth 8000 in
/-- Witness for the amended C8 at the concrete `a.txt` scenario. -/
theorem search_literal_single_file_witness :
    (literalFileMatches "foo" "a.txt"
      (ReadRecord.content "a.txt" ".txt" 286 fooText false).getText).length = 1 :=
  (search_literal_single_file fsFooTwice renvBlank "/w" "foo" "a.txt"
    (ReadRecord.content "a.txt" ".txt" 286 fooText false) 150
    (by decide) (by decide) (by decide)).2.1

/-! ## Claims C1, C4, C5: the conversation loop -/

/-- C1: every call to `process_conversation` raises `UnboundLocalError`
while evaluating `max_iterations = max_iterations`, before the loop is
entered: the conversation is returned unchanged and no completion call, no
final answer and no fallback string is ever produced. -/
theorem process_conversation_unbound_local {α : Type} (env : ToolEnv α)
    (oracle : List Message → AssistantMsg) (messages : List Message) :
    process_conversation env oracle messages =
      (messages,
        .raised "UnboundLocalError: local variable max_iterations referenced before assignment") :=
  rfl

/-- Is this a `role="tool"` message? -/
def Message.isToolMsg : Message → Bool
  | .tool _ _ => true
  | _ => false

/-- A `json.loads` that always raises, as on a malformed argument string. -/
def envBadJson : ToolEnv String where
  jsonLoads := fun _ => .error "Expecting value: line 1 column 1 (char 0)"
  callTool := fun _ _ => .ok (.record "ok")
  dumps := fun _ => "dumped"

/-- A model that always requests one `list_files` invocation with a
malformed argument string. -/
def oracleOneBadCall : List Message → AssistantMsg :=
  fun _ => ⟨none, [⟨"call_1", "list_files", "not json"⟩]⟩

/-- C4 counterexample: the loop appends the assistant message carrying one
requested invocation, but `json.loads` on its argument string raises before
any tool-result message is appended, so zero tool-result messages (not
exactly one) follow it before the turn ends. -/
theorem tool_result_pairing_counterexample :
    (oracleOneBadCall [Message.system "s"]).tool_calls.length = 1 ∧
    conversationLoop envBadJson oracleOneBadCall 5 [Message.system "s"] none =
      ([Message.system "s",
        Message.assistant none (some [⟨"call_1", "list_files", "not json"⟩])],
        .raised "Expecting value: line 1 column 1 (char 0)") ∧
    (([Message.system "s",
        Message.assistant none (some [⟨"call_1", "list_files", "not json"⟩])].filter
      Message.isToolMsg).length) = 0 :=
  ⟨by decide, by decide, by decide⟩

/-- When every argument string decodes, the dispatch loop appends exactly
one tool message per requested invocation, in request order, each carrying
that invocation's id, and propagates no exception. -/
theorem runToolCalls_ok {α : Type} (env : ToolEnv α) :
    ∀ (tcs : List ToolCall) (msgs : List Message),
      (∀ tc ∈ tcs, ∃ a, env.jsonLoads tc.arguments = .ok a) →
      ∃ results : List Message,
        runToolCalls env tcs msgs = (msgs ++ results, none) ∧
        results.length = tcs.length ∧
        (∀ i, i < tcs.length → ∃ tc content, tcs.get? i = some tc ∧
          results.get? i = some (Message.tool tc.id content)) := by
  intro tcs
  induction tcs with
  | nil =>
    intro msgs _
    exact ⟨[], by simp [runToolCalls], rfl, by intro i hi; simp at hi⟩
  | cons tc rest ih =>
    intro msgs h
    obtain ⟨args, hargs⟩ := h tc (by simp)
    obtain ⟨results, hrun, hlen, hidx⟩ :=
      ih (msgs ++ [Message.tool tc.id (env.dumps (execute_tool env tc.name args))])
        (fun t ht => h t (by simp [ht]))
    refine ⟨Message.tool tc.id (env.dumps (execute_tool env tc.name args)) :: results,
      ?_, ?_, ?_⟩
    · simp only [runToolCalls, hargs]
      rw [hrun, List.append_assoc]
      rfl
    · simp [hlen]
    · intro i hi
      cases i with
      | zero => exact ⟨tc, _, rfl, rfl⟩
      | succ j =>
        obtain ⟨t, c, h1, h2⟩ := hidx j (by simpa using hi)
        exact ⟨t, c, h1, h2⟩

/-- C4 as amended: whenever the assistant message appended to the
conversation contains tool invocations and every invocation's argument
string decodes, then before the next model call the loop appends exactly
one tool-result message per requested invocation, in request order, each
carrying that invocation's correlation identifier.  (When an argument
string fails to decode, the exception propagates with the assistant message
appended but without a tool-result message for the failing invocation, per
the counterexample.) -/
theorem assistant_tool_results_before_next_call {α : Type} (env : ToolEnv α)
    (oracle : List Message → AssistantMsg) (fuel : Nat) (messages : List Message)
    (last : Option AssistantMsg)
    (hne : (oracle messages).tool_calls ≠ [])
    (hdec : ∀ tc ∈ (oracle messages).tool_calls, ∃ a, env.jsonLoads tc.arguments = .ok a) :
    ∃ results : List Message,
      conversationLoop env oracle (fuel + 1) messages last =
        conversationLoop env oracle fuel
          (messages ++ [Message.assistant (oracle messages).content
            (some (oracle messages).tool_calls)] ++ results)
          (some (oracle messages)) ∧
      results.length = (oracle messages).tool_calls.length ∧
      (∀ i, i < (oracle messages).tool_calls.length →
        ∃ tc content, (oracle messages).tool_calls.get? i = some tc ∧
          results.get? i = some (Message.tool tc.id content)) := by
  have hempty : (oracle messages).tool_calls.isEmpty = false := by
    cases hcalls : (oracle messages).tool_calls with
    | nil => exact absurd hcalls hne
    | cons a l => rfl
  obtain ⟨results, hrun, hlen, hidx⟩ :=
    runToolCalls_ok env (oracle messages).tool_calls
      (messages ++ [Message.assistant (oracle messages).content
        (some (oracle messages).tool_calls)]) hdec
  refine ⟨results, ?_, hlen, hidx⟩
  simp only [conversationLoop, hempty, Bool.false_eq_true, if_false, reduceIte]
  rw [hrun, List.append_assoc]

/-- A decoder that accepts every argument string. -/
def envGoodJson : ToolEnv String where
  jsonLoads := fun s => .ok s
  callTool := fun _ _ => .ok (.record "result")
  dumps := fun _ => "dumped"

/-- A model that always requests two invocations, one of them unknown. -/
def oracleTwoCalls : List Message → AssistantMsg :=
  fun _ => ⟨none, [⟨"id1", "read_file", "argsA"⟩, ⟨"id2", "frobnicate", "argsB"⟩]⟩

/-- Witness for the amended C4 on a concrete two-invocation round. -/
theorem assistant_tool_results_before_next_call_witness :
    ∃ results : List Message,
      conversationLoop envGoodJson oracleTwoCalls 1 [Message.system "s"] none =
        conversationLoop envGoodJson oracleTwoCalls 0
          ([Message.system "s"] ++
            [Message.assistant (oracleTwoCalls [Message.system "s"]).content
              (some (oracleTwoCalls [Message.system "s"]).tool_calls)] ++ results)
          (some (oracleTwoCalls [Message.system "s"])) ∧
      results.length = (oracleTwoCalls [Message.system "s"]).tool_calls.length ∧
      (∀ i, i < (oracleTwoCalls [Message.system "s"]).tool_calls.length →
        ∃ tc content, (oracleTwoCalls [Message.system "s"]).tool_calls.get? i = some tc ∧
          results.get? i = some (Message.tool tc.id content)) :=
  assistant_tool_results_before_next_call envGoodJson oracleTwoCalls 0
    [Message.system "s"] none (by decide) (fun tc _ => ⟨tc.arguments, rfl⟩)

/-- C5 counterexample: a failure decoding the invocation's argument string
(`json.loads` runs outside every `try`) propagates as an exception out of
the tool-calling loop instead of being converted into an error result
record. -/
theorem dispatch_exception_escape_counterexample :
    (conversationLoop envBadJson oracleOneBadCall 3 [Message.user "hi"] none).2 =
      LoopOutcome.raised "Expecting value: line 1 column 1 (char 0)" :=
  by decide

/-- The six tool names `execute_tool` dispatches on. -/
def toolNames : List String :=
  ["list_files", "list_directories", "get_file_metadata", "read_file",
    "read_files_iterative", "search_in_files"]

/-- C5 as amended: once an invocation's argument string has been decoded,
dispatching never propagates an exception: an exception raised by a known
tool is converted into an `{"error": str(e)}` record, an unknown tool name
yields an `{"error": "Unknown tool: ..."}` record, a known tool's return
value is passed through, and the dispatch loop over decodable invocations
raises nothing.  (A `json.loads` failure on the argument string itself
still propagates, per the counterexample.) -/
theorem execute_tool_converts_exceptions {α : Type} (env : ToolEnv α)
    (nm : String) (a : α) (tcs : List ToolCall) (msgs : List Message) :
    (nm ∈ toolNames → ∀ e, env.callTool nm a = .error e →
      execute_tool env nm a = .errorRecord e) ∧
    (nm ∈ toolNames → ∀ r, env.callTool nm a = .ok r →
      execute_tool env nm a = r) ∧
    (nm ∉ toolNames →
      execute_tool env nm a = .errorRecord ("Unknown tool: " ++ nm)) ∧
    ((∀ tc ∈ tcs, ∃ b, env.jsonLoads tc.arguments = .ok b) →
      (runToolCalls env tcs msgs).2 = none) := by
  refine ⟨?_, ?_, ?_, ?_⟩
  · intro hmem e herr
    fin_cases hmem <;> simp [execute_tool, herr]
  · intro hmem r hok
    fin_cases hmem <;> simp [execute_tool, hok]
  · intro hmem
    simp only [toolNames, List.mem_cons, List.not_mem_nil, or_false, not_or] at hmem
    obtain ⟨h1, h2, h3, h4, h5, h6⟩ := hmem
    simp [execute_tool, h1, h2, h3, h4, h5, h6]
  · intro hdec
    obtain ⟨results, hrun, -, -⟩ := runToolCalls_ok env tcs msgs hdec
    rw [hrun]

/-- A tool layer whose every call raises. -/
def envToolRaises : ToolEnv String where
  jsonLoads := fun s => .ok s
  callTool := fun _ _ => .error "boom"
  dumps := fun _ => "dumped"

/-- Witness for the amended C5 at concrete inputs. -/
theorem execute_tool_converts_exceptions_witness :
    execute_tool envToolRaises "read_file" "x" = .errorRecord "boom" ∧
    execute_tool envToolRaises "frobnicate" "x" =
      .errorRecord ("Unknown tool: " ++ "frobnicate") ∧
    (runToolCalls envToolRaises [⟨"i1", "read_file", "argsA"⟩] []).2 = none :=
  ⟨(execute_tool_converts_exceptions envToolRaises "read_file" "x" [] []).1
      (by decide) "boom" rfl,
    (execute_tool_converts_exceptions envToolRaises "frobnicate" "x" [] []).2.2.1
      (by decide),
    (execute_tool_converts_exceptions envToolRaises "unused" "x"
      [⟨"i1", "read_file", "argsA"⟩] []).2.2.2 (fun tc _ => ⟨tc.arguments, rfl⟩)⟩

end FMAgent
